import Mathlib

/-!
Verification of the PROBoter firmware probing core (`Proboter.cpp`):
`probe_z` (single-axis contact probe with quick-stop/resync/retract),
`probe_line` (adaptive sign-flipping bisection edge search) and
`center_circle` (six-direction centering run).

The machine numbers are modelled as rationals; the motion subsystem and the
binary contact sensor are modelled as an environment supplying, per probe
call, whether and when the sensor fires, the axis value latched from the
planner at the moment of contact, and the realized stepper position read
back after the quick stop.  Motion commands are recorded in an event trace.
-/

namespace Proboter

/-- Observable interactions with the motion subsystem. -/
inductive Event where
  | moveTo (x y z : ℚ)
  | quickStop
  | sync
  | resync
deriving DecidableEq

/-- The logical machine state: `current_position` (x, y, z) and the shared
`last_probed_z` static. -/
structure Machine where
  x : ℚ
  y : ℚ
  z : ℚ
  lastProbedZ : ℚ
deriving DecidableEq

/-- Outcome of the polling loop of one `probe_z` call:
the sensor is already triggered on entry (the loop body never runs),
it triggers during the loop (latching the planner's current z), or the
queued motion drains with no trigger. -/
inductive ProbeOutcome where
  | entryTriggered
  | loopTriggered (zLatch : ℚ)
  | notTriggered
deriving DecidableEq

/-- Environment of a single `probe_z` call: the polling outcome and the
realized stepper z position read back after the quick stop. -/
structure ProbeEnv where
  outcome : ProbeOutcome
  stoppedZ : ℚ
deriving DecidableEq

/-- `Proboter::probe_z(z_max, z_retract, z_clearance, feed)`: issue the move
to `z_max`, poll until trigger or idle, quick-stop, synchronize, resync the
logical position from the steppers, then retract (absolutely when
`z_retract >= 0`, else relative to the resynced position) and block.
Returns the triggered flag, the updated machine state and the event trace. -/
def probe_z (env : ProbeEnv) (z_max z_retract z_clearance : ℚ) (m : Machine) :
    Bool × Machine × List Event :=
  let res : Bool × ℚ :=
    match env.outcome with
    | ProbeOutcome.entryTriggered => (true, m.lastProbedZ)
    | ProbeOutcome.loopTriggered zL => (true, zL)
    | ProbeOutcome.notTriggered => (false, m.lastProbedZ)
  let zTarget : ℚ := if 0 ≤ z_retract then z_retract else env.stoppedZ - z_clearance
  (res.1,
   { x := m.x, y := m.y, z := zTarget, lastProbedZ := res.2 },
   [Event.moveTo m.x m.y z_max, Event.quickStop, Event.sync, Event.resync,
    Event.moveTo m.x m.y zTarget, Event.sync])

/-- Scanner over an event trace: in mode `false` it looks for a quick stop,
in mode `true` (after a quick stop) it requires a resync before the next
move command.  Returns `false` iff some move is issued after a quick stop
with no resync in between. -/
def resyncScan : Bool → List Event → Bool
  | _, [] => true
  | false, Event.quickStop :: rest => resyncScan true rest
  | false, _ :: rest => resyncScan false rest
  | true, Event.resync :: rest => resyncScan false rest
  | true, Event.moveTo _ _ _ :: _ => false
  | true, _ :: rest => resyncScan true rest

/-- After every quick stop in the trace, a resync occurs before the next
move command. -/
def resyncBeforeMove (tr : List Event) : Bool := resyncScan false tr

/-- Loop state of `probe_line`: machine state, the no-progress counter
`step_counter`, the signed step `f`, `last_triggered`, the output point
(`none` while `out_probe_point` is still unwritten), plus a ghost count of
executed loop iterations, the index of the next probe call, and the trace. -/
structure LineState where
  m : Machine
  stepCounter : ℕ
  f : ℚ
  lastTriggered : Bool
  out : Option (ℚ × ℚ × ℚ)
  iters : ℕ
  calls : ℕ
  trace : List Event
deriving DecidableEq

/-- The `while` condition of `probe_line`:
`step_counter < 20 && abs(f) >= min_step`. -/
def lineCond (min_step : ℚ) (s : LineState) : Bool :=
  decide (s.stepCounter < 20) && decide (min_step ≤ |s.f|)

/-- Lateral position targeted by the next iteration:
`current_position += direction * f`. -/
def latPos (direction : ℚ × ℚ) (s : LineState) : ℚ × ℚ :=
  (s.m.x + direction.1 * s.f, s.m.y + direction.2 * s.f)

/-- One iteration of the `probe_line` loop body: move laterally by
`direction * f`, probe down from `init_z + 0.75` (retracting to `z_retract`,
clearance argument `-1`), record the probed point, then on a transition of
the triggered flag set `f = -0.5 * f` and reset `step_counter`, else
increment `step_counter`. -/
def probeLineStep (env : ℕ → ℚ → ℚ → ProbeEnv) (init_z z_retract : ℚ)
    (direction : ℚ × ℚ) (s : LineState) : LineState :=
  let p := latPos direction s
  let r := probe_z (env s.calls p.1 p.2) (init_z + 3/4) z_retract (-1)
    { x := p.1, y := p.2, z := s.m.z, lastProbedZ := s.m.lastProbedZ }
  { m := r.2.1,
    stepCounter := if r.1 ≠ s.lastTriggered then 0 else s.stepCounter + 1,
    f := if r.1 ≠ s.lastTriggered then -(1/2) * s.f else s.f,
    lastTriggered := r.1,
    out := some (r.2.1.x, r.2.1.y, r.2.1.lastProbedZ),
    iters := s.iters + 1,
    calls := s.calls + 1,
    trace := s.trace ++ (Event.moveTo p.1 p.2 s.m.z :: r.2.2) }

/-- The `probe_line` search loop, fuelled so that it is a total function;
`none` means the fuel ran out before the loop condition turned false (the
C++ loop would still be running). -/
def probeLineAux (env : ℕ → ℚ → ℚ → ProbeEnv) (init_z min_step z_retract : ℚ)
    (direction : ℚ × ℚ) : ℕ → LineState → Option LineState
  | 0, s => if lineCond min_step s then none else some s
  | Nat.succ fuel, s =>
    if lineCond min_step s then
      probeLineAux env init_z min_step z_retract direction fuel
        (probeLineStep env init_z z_retract direction s)
    else some s

/-- Entry state of `probe_line`: `step_counter = 0`, `f = 1.0`,
`last_triggered = true`, output point unwritten. -/
def initLineState (m : Machine) (c0 : ℕ) : LineState :=
  { m := m, stepCounter := 0, f := 1, lastTriggered := true, out := none,
    iters := 0, calls := c0, trace := [] }

/-- `Proboter::probe_line`: runs the loop and returns
`step_counter < 20` (the convergence flag) with the final loop state. -/
def probe_line (env : ℕ → ℚ → ℚ → ProbeEnv) (init_z min_step z_retract : ℚ)
    (direction : ℚ × ℚ) (m : Machine) (c0 fuel : ℕ) : Option (Bool × LineState) :=
  (probeLineAux env init_z min_step z_retract direction fuel (initLineState m c0)).map
    (fun s => (decide (s.stepCounter < 20), s))

/-- A contact predicate that is a step function of the lateral offset along
the search direction `(dx, dy)` from the start position of `m0`: the probe
at `(x, y)` triggers iff the offset `s` with `(x, y) = m0 + s * (dx, dy)`
satisfies `s ≤ t` (expressed without division as
`((x - m0.x) * dx + (y - m0.y) * dy) ≤ t * (dx^2 + dy^2)`).  Triggered
probes latch `zLatch`; every stop lands at `stopZ`. -/
def stepSensor (m0 : Machine) (dx dy t zLatch stopZ : ℚ) : ℕ → ℚ → ℚ → ProbeEnv :=
  fun _ x y =>
    if (x - m0.x) * dx + (y - m0.y) * dy ≤ t * (dx ^ 2 + dy ^ 2) then
      { outcome := ProbeOutcome.loopTriggered zLatch, stoppedZ := stopZ }
    else
      { outcome := ProbeOutcome.notTriggered, stoppedZ := stopZ }

/-- Configuration constants of `center_circle`. -/
structure CCConfig where
  zMaxPos : ℚ
  zClearance : ℚ
  probingStep : ℚ
deriving DecidableEq

/-- The fixed six-entry direction schedule `step_dirs`. -/
def stepDir (cfg : CCConfig) : ℕ → ℚ × ℚ
  | 0 => (cfg.probingStep, 0)
  | 1 => (-1 * cfg.probingStep, 0)
  | 2 => (0, cfg.probingStep)
  | 3 => (0, -1 * cfg.probingStep)
  | 4 => (cfg.probingStep, 0)
  | 5 => (-1 * cfg.probingStep, 0)
  | _ => (0, 0)

/-- State of the `center_circle` scanning loop: machine state, the mutable
probing center, the boundary points recorded so far, the (discarded by the
C++ code) convergence flags returned by `probe_line`, the probe call
counter and the motion trace. -/
structure CCState where
  m : Machine
  cx : ℚ
  cy : ℚ
  cz : ℚ
  points : List (ℚ × ℚ × ℚ)
  convFlags : List Bool
  calls : ℕ
  trace : List Event
deriving DecidableEq

/-- One iteration `i` of the `center_circle` scanning loop: move to the
probing center, run `probe_line(z0, 0.01, z0_cleared, step_dirs[i],
points[i])`, then refine the center's x after direction 1 and its y after
direction 3. -/
def ccScanStep (env : ℕ → ℚ → ℚ → ProbeEnv) (cfg : CCConfig) (z0 z0c : ℚ)
    (i : ℕ) (st : CCState) : Option CCState :=
  match probe_line env z0 (1/100) z0c (stepDir cfg i)
      { x := st.cx, y := st.cy, z := st.cz, lastProbedZ := st.m.lastProbedZ }
      st.calls 200 with
  | none => none
  | some (conv, ls) =>
    match ls.out with
    | none => none
    | some pt =>
      let pts := st.points ++ [pt]
      let cx2 := if i = 1 then
          ((pts.getD 0 (0, 0, 0)).1 + (pts.getD 1 (0, 0, 0)).1) * (1/2) else st.cx
      let cy2 := if i = 3 then
          ((pts.getD 2 (0, 0, 0)).2.1 + (pts.getD 3 (0, 0, 0)).2.1) * (1/2) else st.cy
      some { m := ls.m, cx := cx2, cy := cy2, cz := st.cz,
             points := pts, convFlags := st.convFlags ++ [conv],
             calls := ls.calls,
             trace := st.trace ++ (Event.moveTo st.cx st.cy st.cz :: ls.trace) }

/-- The first `k` iterations of the scanning loop. -/
def ccScan (env : ℕ → ℚ → ℚ → ProbeEnv) (cfg : CCConfig) (z0 z0c : ℚ) :
    ℕ → CCState → Option CCState
  | 0, st => some st
  | Nat.succ k, st =>
    match ccScan env cfg z0 z0c k st with
    | none => none
    | some st' => ccScanStep env cfg z0 z0c k st'

/-- The serial emission loop of `center_circle`: it prints the x, y, z of
`points[i]` for `i = 2..5` and nothing else. -/
def emitPoints (pts : List (ℚ × ℚ × ℚ)) : List (ℚ × ℚ × ℚ) :=
  (List.range 4).map (fun j => pts.getD (2 + j) (0, 0, 0))

/-- The caller-visible result of a `center_circle` run: the success flag,
the emitted point list, plus ghost fields recording all six boundary
points, the discarded `probe_line` convergence flags and the motion trace. -/
structure CCResult where
  success : Bool
  emitted : List (ℚ × ℚ × ℚ)
  points : List (ℚ × ℚ × ℚ)
  convFlags : List Bool
  trace : List Event
deriving DecidableEq

/-- `Proboter::center_circle`: reset `last_probed_z`, run the initial
contact probe (`probe_z(Z_MAX_POS, -1, 1, speed)`), abort on no contact,
else run the six-direction scanning loop from the initial contact position
and emit `points[2..5]`. -/
def center_circle (env : ℕ → ℚ → ℚ → ProbeEnv) (cfg : CCConfig) (m0 : Machine) :
    Option CCResult :=
  let m1 : Machine := { x := m0.x, y := m0.y, z := m0.z, lastProbedZ := 0 }
  let r0 := probe_z (env 0 m1.x m1.y) cfg.zMaxPos (-1) 1 m1
  let z0 := r0.2.1.lastProbedZ
  let z0c := z0 - cfg.zClearance
  if r0.1 = false then
    some { success := false, emitted := [], points := [], convFlags := [],
           trace := r0.2.2 }
  else
    let st0 : CCState :=
      { m := r0.2.1, cx := r0.2.1.x, cy := r0.2.1.y, cz := r0.2.1.z,
        points := [], convFlags := [], calls := 1, trace := r0.2.2 }
    match ccScan env cfg z0 z0c 6 st0 with
    | none => none
    | some stF =>
      some { success := true, emitted := emitPoints stF.points,
             points := stF.points, convFlags := stF.convFlags,
             trace := stF.trace }

end Proboter

namespace Proboter

/-! ### Concrete fixtures used by counterexamples and witnesses -/

/-- A machine at the origin with a zero latched contact value. -/
def m₀ : Machine := { x := 0, y := 0, z := 0, lastProbedZ := 0 }

/-- A probe call that triggers during the polling loop, latching `2`,
with the head stopping at `3`. -/
def lpE : ProbeEnv := { outcome := ProbeOutcome.loopTriggered 2, stoppedZ := 3 }

/-- A probe call that never triggers, the head stopping at `3`. -/
def npE : ProbeEnv := { outcome := ProbeOutcome.notTriggered, stoppedZ := 3 }

/-- An environment in which no probe ever triggers. -/
def envNo : ℕ → ℚ → ℚ → ProbeEnv := fun _ _ _ => npE

/-! ### probe_z: stop/resync ordering, entry-triggered latch, retraction -/

/-- C2: on every `probe_z` call — triggered or not — the emergency stop is
followed by a position resynchronization from the stepper counters before
any further move command (in particular before the retract move) is issued:
the trace is exactly move, quick-stop, synchronize, resync, retract move,
synchronize, and the `resyncBeforeMove` scanner accepts it. -/
theorem probe_z_resync_before_any_move (env : ProbeEnv)
    (z_max z_retract z_clearance : ℚ) (m : Machine) :
    (probe_z env z_max z_retract z_clearance m).2.2 =
      [Event.moveTo m.x m.y z_max, Event.quickStop, Event.sync, Event.resync,
       Event.moveTo m.x m.y
         (if 0 ≤ z_retract then z_retract else env.stoppedZ - z_clearance),
       Event.sync] ∧
    resyncBeforeMove (probe_z env z_max z_retract z_clearance m).2.2 = true := by
  refine ⟨rfl, ?_⟩
  rfl

/-- C9: when the contact sensor already reports triggered at entry into
`probe_z`, the polling loop body never runs: the call returns
`triggered = true` but `last_probed_z` keeps its previous value. -/
theorem probe_z_entry_triggered_keeps_latch (env : ProbeEnv)
    (z_max z_retract z_clearance : ℚ) (m : Machine)
    (h : env.outcome = ProbeOutcome.entryTriggered) :
    (probe_z env z_max z_retract z_clearance m).1 = true ∧
    (probe_z env z_max z_retract z_clearance m).2.1.lastProbedZ = m.lastProbedZ := by
  unfold probe_z
  rw [h]
  exact ⟨rfl, rfl⟩

/-- Witness for C9 at a concrete input: an entry-triggered probe returns
`true` and leaves the previously latched value `42` untouched. -/
theorem probe_z_entry_triggered_keeps_latch_witness :
    ({ outcome := ProbeOutcome.entryTriggered, stoppedZ := 6 } : ProbeEnv).outcome
        = ProbeOutcome.entryTriggered ∧
    (probe_z { outcome := ProbeOutcome.entryTriggered, stoppedZ := 6 } 9 (-1) 1
        { x := 0, y := 0, z := 0, lastProbedZ := 42 }).1 = true ∧
    (probe_z { outcome := ProbeOutcome.entryTriggered, stoppedZ := 6 } 9 (-1) 1
        { x := 0, y := 0, z := 0, lastProbedZ := 42 }).2.1.lastProbedZ
      = ({ x := 0, y := 0, z := 0, lastProbedZ := 42 } : Machine).lastProbedZ :=
  ⟨rfl, probe_z_entry_triggered_keeps_latch _ 9 (-1) 1 _ rfl⟩

/-- C5 counterexample: with a probe that latched contact at `5` but whose
quick stop landed at `9/2`, the relative retract (`z_retract = -1`,
clearance `1`) targets `9/2 - 1 = 7/2`, not the latched
`last_probed_z - clearance = 4`: the claim that the relative retract target
equals `contactAxisValue` minus the clearance is false on the code. -/
theorem probe_z_relative_retract_not_from_latch :
    (probe_z { outcome := ProbeOutcome.loopTriggered 5, stoppedZ := 9/2 } 10 (-1) 1
        m₀).2.1.z ≠
    (probe_z { outcome := ProbeOutcome.loopTriggered 5, stoppedZ := 9/2 } 10 (-1) 1
        m₀).2.1.lastProbedZ - 1 := by
  with_unfolding_all decide

/-- C5 (amended): on every `probe_z` call the head is retracted before
return — in absolute mode (`z_retract >= 0`) to the literal `z_retract`,
in relative mode to the resynchronized stopped position (read back from
the steppers) minus the clearance offset, which coincides with the latched
`last_probed_z` minus the clearance only when the stop lands exactly on the
latched position; the retract move is the last move of the trace. -/
theorem probe_z_retract_target (env : ProbeEnv)
    (z_max z_retract z_clearance : ℚ) (m : Machine) :
    (probe_z env z_max z_retract z_clearance m).2.1.z =
      (if 0 ≤ z_retract then z_retract else env.stoppedZ - z_clearance) ∧
    (probe_z env z_max z_retract z_clearance m).2.2.getD 4 Event.quickStop =
      Event.moveTo m.x m.y
        (if 0 ≤ z_retract then z_retract else env.stoppedZ - z_clearance) ∧
    (probe_z env z_max z_retract z_clearance m).2.2.length = 6 :=
  ⟨rfl, rfl, rfl⟩

end Proboter

namespace Proboter

/-! ### probe_line: generic loop lemmas -/

/-- The probe call made by one `probe_line` iteration. -/
def probeRes (env : ℕ → ℚ → ℚ → ProbeEnv) (init_z z_retract : ℚ)
    (direction : ℚ × ℚ) (s : LineState) : Bool × Machine × List Event :=
  probe_z (env s.calls (latPos direction s).1 (latPos direction s).2)
    (init_z + 3/4) z_retract (-1)
    { x := (latPos direction s).1, y := (latPos direction s).2,
      z := s.m.z, lastProbedZ := s.m.lastProbedZ }

theorem probeLineStep_m_x (env : ℕ → ℚ → ℚ → ProbeEnv) (iz zr : ℚ)
    (d : ℚ × ℚ) (s : LineState) :
    (probeLineStep env iz zr d s).m.x = s.m.x + d.1 * s.f := rfl

theorem probeLineStep_m_y (env : ℕ → ℚ → ℚ → ProbeEnv) (iz zr : ℚ)
    (d : ℚ × ℚ) (s : LineState) :
    (probeLineStep env iz zr d s).m.y = s.m.y + d.2 * s.f := rfl

theorem probeLineStep_f (env : ℕ → ℚ → ℚ → ProbeEnv) (iz zr : ℚ)
    (d : ℚ × ℚ) (s : LineState) :
    (probeLineStep env iz zr d s).f =
      if (probeRes env iz zr d s).1 ≠ s.lastTriggered then -(1/2) * s.f else s.f := rfl

theorem probeLineStep_sc (env : ℕ → ℚ → ℚ → ProbeEnv) (iz zr : ℚ)
    (d : ℚ × ℚ) (s : LineState) :
    (probeLineStep env iz zr d s).stepCounter =
      if (probeRes env iz zr d s).1 ≠ s.lastTriggered then 0 else s.stepCounter + 1 := rfl

theorem probeLineStep_last (env : ℕ → ℚ → ℚ → ProbeEnv) (iz zr : ℚ)
    (d : ℚ × ℚ) (s : LineState) :
    (probeLineStep env iz zr d s).lastTriggered = (probeRes env iz zr d s).1 := rfl

theorem probeLineStep_iters (env : ℕ → ℚ → ℚ → ProbeEnv) (iz zr : ℚ)
    (d : ℚ × ℚ) (s : LineState) :
    (probeLineStep env iz zr d s).iters = s.iters + 1 := rfl

theorem probeLineStep_out (env : ℕ → ℚ → ℚ → ProbeEnv) (iz zr : ℚ)
    (d : ℚ × ℚ) (s : LineState) :
    (probeLineStep env iz zr d s).out =
      some ((probeLineStep env iz zr d s).m.x, (probeLineStep env iz zr d s).m.y,
        (probeLineStep env iz zr d s).m.lastProbedZ) := rfl

/-- Whenever the loop returns a final state, the loop condition is false
there: the loop stopped at the counter cap or below `min_step`. -/
theorem probeLineAux_exit (env : ℕ → ℚ → ℚ → ProbeEnv) (iz ms zr : ℚ)
    (d : ℚ × ℚ) :
    ∀ (fuel : ℕ) (s s' : LineState),
      probeLineAux env iz ms zr d fuel s = some s' → lineCond ms s' = false := by
  intro fuel
  induction fuel with
  | zero =>
    intro s s' h
    by_cases hc : lineCond ms s = true
    · simp [probeLineAux, hc] at h
    · simp [probeLineAux, hc] at h
      simp [← h]
      exact Bool.not_eq_true _ ▸ hc
  | succ g ih =>
    intro s s' h
    by_cases hc : lineCond ms s = true
    · simp only [probeLineAux, hc, if_true] at h
      exact ih _ _ h
    · simp [probeLineAux, hc] at h
      simp [← h]
      exact Bool.not_eq_true _ ▸ hc

/-- The ghost iteration counter never decreases along the loop. -/
theorem probeLineAux_iters_le (env : ℕ → ℚ → ℚ → ProbeEnv) (iz ms zr : ℚ)
    (d : ℚ × ℚ) :
    ∀ (fuel : ℕ) (s s' : LineState),
      probeLineAux env iz ms zr d fuel s = some s' → s.iters ≤ s'.iters := by
  intro fuel
  induction fuel with
  | zero =>
    intro s s' h
    by_cases hc : lineCond ms s = true
    · simp [probeLineAux, hc] at h
    · simp [probeLineAux, hc] at h
      simp [← h]
  | succ g ih =>
    intro s s' h
    by_cases hc : lineCond ms s = true
    · simp only [probeLineAux, hc, if_true] at h
      have := ih _ _ h
      rw [probeLineStep_iters] at this
      omega
    · simp [probeLineAux, hc] at h
      simp [← h]

/-- Once the output point has been written it stays written. -/
theorem probeLineAux_out_isSome (env : ℕ → ℚ → ℚ → ProbeEnv) (iz ms zr : ℚ)
    (d : ℚ × ℚ) :
    ∀ (fuel : ℕ) (s s' : LineState), s.out.isSome →
      probeLineAux env iz ms zr d fuel s = some s' → s'.out.isSome := by
  intro fuel
  induction fuel with
  | zero =>
    intro s s' hs h
    by_cases hc : lineCond ms s = true
    · simp [probeLineAux, hc] at h
    · simp [probeLineAux, hc] at h
      rwa [← h]
  | succ g ih =>
    intro s s' hs h
    by_cases hc : lineCond ms s = true
    · simp only [probeLineAux, hc, if_true] at h
      exact ih _ _ (by rw [probeLineStep_out]; rfl) h
    · simp [probeLineAux, hc] at h
      rwa [← h]

/-- Fuel bound: if `|f| * (1/2)^n < min_step` then `21*n + 21` more loop
iterations always suffice for the loop condition to turn false, whatever
the sensor environment does. -/
theorem probeLineAux_isSome (env : ℕ → ℚ → ℚ → ProbeEnv) (iz ms zr : ℚ)
    (d : ℚ × ℚ) :
    ∀ (fuel n : ℕ) (s : LineState), |s.f| * ((1:ℚ)/2)^n < ms →
      21 * n + 20 < fuel + s.stepCounter →
      (probeLineAux env iz ms zr d fuel s).isSome := by
  intro fuel
  induction fuel with
  | zero =>
    intro n s hf hfu
    have hsc : ¬ (s.stepCounter < 20) := by omega
    simp [probeLineAux, lineCond, hsc]
  | succ g ih =>
    intro n s hf hfu
    by_cases hc : lineCond ms s = true
    · have hcond : s.stepCounter < 20 ∧ ms ≤ |s.f| := by
        simpa [lineCond, Bool.and_eq_true, decide_eq_true_eq] using hc
      simp only [probeLineAux, hc, if_true]
      by_cases htr : (probeRes env iz zr d s).1 ≠ s.lastTriggered
      · -- transition: f halves, counter resets
        rcases n with _ | m
        · exfalso
          have h1 : |s.f| * ((1:ℚ)/2)^0 = |s.f| := by norm_num
          rw [h1] at hf
          linarith [hcond.2]
        · apply ih m
          · rw [probeLineStep_f, if_pos htr]
            have habs : |(-(1/2) * s.f : ℚ)| = (1/2) * |s.f| := by
              rw [abs_mul]
              norm_num
            rw [habs]
            calc (1/2) * |s.f| * ((1:ℚ)/2)^m = |s.f| * ((1:ℚ)/2)^(m+1) := by ring
              _ < ms := hf
          · rw [probeLineStep_sc, if_pos htr]
            omega
      · -- no transition: counter increments
        apply ih n
        · rw [probeLineStep_f, if_neg htr]
          exact hf
        · rw [probeLineStep_sc, if_neg htr]
          omega
    · simp [probeLineAux, hc]

end Proboter

namespace Proboter

/-- C4 counterexample: `step_counter` is reset to 0 on every transition of
the triggered flag, so the total number of executed loop iterations can
exceed 20.  With `min_step = 1/2 > 0` and a sensor that never triggers, the
first iteration is a transition (the flag starts `true`) and the loop then
runs 20 further iterations before the counter reaches the cap: 21
iterations in total. -/
theorem probe_line_21_iterations :
    (probeLineAux envNo 0 (1/2) 0 (1, 0) 100 (initLineState m₀ 0)).map
      (fun s => s.iters) = some 21 := by
  with_unfolding_all decide

/-- C4 (amended): for `min_step > 0` the `probe_line` loop terminates — at
most `21*n + 21` iterations when `(1/2)^n < min_step` — and it stops exactly
at the iteration cap (`step_counter = 20` consecutive no-transition
iterations) or as soon as `|f| < min_step`; `f` is halved and sign-flipped
(and the counter reset) on every transition of the triggered flag.  The cap
bounds only the consecutive no-transition iterations, not the total. -/
theorem probe_line_terminates (env : ℕ → ℚ → ℚ → ProbeEnv)
    (init_z min_step z_retract : ℚ) (d : ℚ × ℚ) (m : Machine) (c0 n : ℕ)
    (hn : ((1:ℚ)/2)^n < min_step) :
    (∀ fuel, 21 * n + 21 ≤ fuel →
      (probeLineAux env init_z min_step z_retract d fuel (initLineState m c0)).isSome) ∧
    (∀ fuel s',
      probeLineAux env init_z min_step z_retract d fuel (initLineState m c0) = some s' →
      20 ≤ s'.stepCounter ∨ |s'.f| < min_step) ∧
    (∀ s : LineState, (probeRes env init_z z_retract d s).1 ≠ s.lastTriggered →
      (probeLineStep env init_z z_retract d s).f = -(1/2) * s.f ∧
      (probeLineStep env init_z z_retract d s).stepCounter = 0) := by
  refine ⟨?_, ?_, ?_⟩
  · intro fuel hfuel
    apply probeLineAux_isSome env init_z min_step z_retract d fuel n
    · have : |(initLineState m c0).f| = 1 := by
        simp [initLineState]
      rw [this, one_mul]
      exact hn
    · simp only [initLineState]
      omega
  · intro fuel s' h
    have hc := probeLineAux_exit env init_z min_step z_retract d fuel _ _ h
    simp only [lineCond, Bool.and_eq_true, decide_eq_true_eq, Bool.and_eq_false_iff,
      decide_eq_false_iff_not, not_lt, not_le] at hc
    rcases hc with h1 | h1
    · exact Or.inl h1
    · exact Or.inr h1
  · intro s htr
    rw [probeLineStep_f, if_pos htr, probeLineStep_sc, if_pos htr]
    exact ⟨rfl, rfl⟩

/-- Witness for C4 at a concrete input: with `min_step = 3/4` and `n = 1`,
fuel `42` suffices and the loop returns a final state. -/
theorem probe_line_terminates_witness :
    ((1:ℚ)/2)^1 < 3/4 ∧
    (probeLineAux envNo 0 (3/4) 0 (1, 0) 42 (initLineState m₀ 0)).isSome := by
  have h : ((1:ℚ)/2)^1 < 3/4 := by with_unfolding_all decide
  exact ⟨h, (probe_line_terminates envNo 0 (3/4) 0 (1, 0) m₀ 0 1 h).1 42 (by omega)⟩

/-- C10: with `min_step > 1.0` the initial `|f| = 1.0` already fails the
loop condition, so the loop body runs zero times: no lateral move, no probe,
`out_probe_point` left unwritten (`none`), and `probe_line` reports
convergence (`true`); with `min_step <= 1.0` at least one iteration runs and
the output point is always written. -/
theorem probe_line_minstep_gt_one (env : ℕ → ℚ → ℚ → ProbeEnv)
    (init_z min_step z_retract : ℚ) (d : ℚ × ℚ) (m : Machine) (c0 fuel : ℕ) :
    (1 < min_step →
      probeLineAux env init_z min_step z_retract d fuel (initLineState m c0)
        = some (initLineState m c0) ∧
      (initLineState m c0).out = none ∧ (initLineState m c0).iters = 0 ∧
      (initLineState m c0).trace = [] ∧
      probe_line env init_z min_step z_retract d m c0 fuel
        = some (true, initLineState m c0)) ∧
    (min_step ≤ 1 → ∀ s',
      probeLineAux env init_z min_step z_retract d fuel (initLineState m c0) = some s' →
      s'.out.isSome) := by
  constructor
  · intro hms
    have habs : |(initLineState m c0).f| = 1 := by simp [initLineState]
    have hc : lineCond min_step (initLineState m c0) = false := by
      simp only [lineCond, Bool.and_eq_false_iff, decide_eq_false_iff_not, not_le]
      right
      rw [habs]
      exact hms
    have haux : probeLineAux env init_z min_step z_retract d fuel (initLineState m c0)
        = some (initLineState m c0) := by
      cases fuel <;> simp [probeLineAux, hc]
    refine ⟨haux, rfl, rfl, rfl, ?_⟩
    unfold probe_line
    rw [haux]
    rfl
  · intro hms s' h
    have habs : |(initLineState m c0).f| = 1 := by simp [initLineState]
    have hc : lineCond min_step (initLineState m c0) = true := by
      simp only [lineCond, Bool.and_eq_true, decide_eq_true_eq]
      rw [habs]
      refine ⟨?_, hms⟩
      show (0:ℕ) < 20
      omega
    cases fuel with
    | zero => simp [probeLineAux, hc] at h
    | succ g =>
      simp only [probeLineAux, hc, if_true] at h
      exact probeLineAux_out_isSome env init_z min_step z_retract d g _ _
        (by rw [probeLineStep_out]; rfl) h

/-- Witness for C10 at a concrete input: with `min_step = 2 > 1` the loop is
skipped and `probe_line` returns converged with the untouched entry state. -/
theorem probe_line_minstep_gt_one_witness :
    (1:ℚ) < 2 ∧
    probeLineAux envNo 0 2 0 (1, 0) 7 (initLineState m₀ 0) = some (initLineState m₀ 0) ∧
    (initLineState m₀ 0).out = none ∧
    probe_line envNo 0 2 0 (1, 0) m₀ 0 7 = some (true, initLineState m₀ 0) := by
  have h : (1:ℚ) < 2 := by with_unfolding_all decide
  have k := (probe_line_minstep_gt_one envNo 0 2 0 (1, 0) m₀ 0 7).1 h
  exact ⟨h, k.1, k.2.1, k.2.2.2.2⟩

end Proboter

namespace Proboter

/-! ### probe_line under a step-function contact predicate (bisection) -/

/-- Bracketing invariant of the bisection loop at lateral offset `s`, step
`f`, triggered flag `last` and no-progress counter `sc`: the transition
offset `t` lies ahead of `s` within `2|f|` (fresh after a flip) or within
`|f|` (after one no-progress step), on the side the sign of `f` points to,
and `last` records on which side of `t` the current offset lies. -/
def bracketInv (t s f : ℚ) (last : Bool) (sc : ℕ) : Prop :=
  (sc = 0 ∧ ((0 < f ∧ s ≤ t ∧ t < s + 2*f ∧ last = true) ∨
             (f < 0 ∧ s + 2*f ≤ t ∧ t < s ∧ last = false))) ∨
  (sc = 1 ∧ ((0 < f ∧ s ≤ t ∧ t < s + f ∧ last = true) ∨
             (f < 0 ∧ s + f ≤ t ∧ t < s ∧ last = false)))

/-- One scalar loop iteration preserves the bracketing invariant: a
transition flips and halves the bracket, a no-progress step can only happen
once per bracket (from `sc = 0`). -/
theorem bracketInv_step (t s f : ℚ) (last : Bool) (sc : ℕ)
    (hbr : bracketInv t s f last sc) :
    (decide (s + f ≤ t) ≠ last →
      bracketInv t (s + f) (-(1/2) * f) (decide (s + f ≤ t)) 0) ∧
    (decide (s + f ≤ t) = last →
      bracketInv t (s + f) f (decide (s + f ≤ t)) (sc + 1) ∧ sc = 0) := by
  rcases hbr with ⟨hsc0, hAB⟩ | ⟨hsc1, hAB⟩
  · rcases hAB with ⟨hf0, h1, h2, hlast⟩ | ⟨hf0, h1, h2, hlast⟩
    · by_cases hstep : s + f ≤ t
      · refine ⟨?_, ?_⟩
        · intro hne
          exfalso
          rw [decide_eq_true hstep, hlast] at hne
          exact hne rfl
        · intro _
          exact ⟨Or.inr ⟨by omega,
            Or.inl ⟨hf0, hstep, by linarith, decide_eq_true hstep⟩⟩, hsc0⟩
      · refine ⟨?_, ?_⟩
        · intro _
          exact Or.inl ⟨rfl, Or.inr ⟨by linarith, by linarith,
            not_le.mp hstep, decide_eq_false hstep⟩⟩
        · intro heq
          exfalso
          rw [decide_eq_false hstep, hlast] at heq
          exact Bool.noConfusion heq
    · by_cases hstep : s + f ≤ t
      · refine ⟨?_, ?_⟩
        · intro _
          exact Or.inl ⟨rfl, Or.inl ⟨by linarith, hstep, by linarith,
            decide_eq_true hstep⟩⟩
        · intro heq
          exfalso
          rw [decide_eq_true hstep, hlast] at heq
          exact Bool.noConfusion heq
      · refine ⟨?_, ?_⟩
        · intro hne
          exfalso
          rw [decide_eq_false hstep, hlast] at hne
          exact hne rfl
        · intro _
          exact ⟨Or.inr ⟨by omega, Or.inr ⟨hf0, by linarith,
            not_le.mp hstep, decide_eq_false hstep⟩⟩, hsc0⟩
  · rcases hAB with ⟨hf0, h1, h2, hlast⟩ | ⟨hf0, h1, h2, hlast⟩
    · have hstep : ¬ (s + f ≤ t) := not_le.mpr h2
      refine ⟨?_, ?_⟩
      · intro _
        exact Or.inl ⟨rfl, Or.inr ⟨by linarith, by linarith,
          not_le.mp hstep, decide_eq_false hstep⟩⟩
      · intro heq
        exfalso
        rw [decide_eq_false hstep, hlast] at heq
        exact Bool.noConfusion heq
    · have hstep : s + f ≤ t := h1
      refine ⟨?_, ?_⟩
      · intro _
        exact Or.inl ⟨rfl, Or.inl ⟨by linarith, hstep, by linarith,
          decide_eq_true hstep⟩⟩
      · intro heq
        exfalso
        rw [decide_eq_true hstep, hlast] at heq
        exact Bool.noConfusion heq

/-- At exit (`|f| < min_step`) the bracketing invariant pins the current
offset within `2 * min_step` of the transition. -/
theorem bracketInv_close (t s f : ℚ) (last : Bool) (sc : ℕ) (ms : ℚ)
    (hbr : bracketInv t s f last sc) (hf : |f| < ms) : |s - t| < 2 * ms := by
  have h0 : (0:ℚ) ≤ |f| := abs_nonneg f
  rw [abs_sub_lt_iff]
  rcases hbr with ⟨_, hAB⟩ | ⟨_, hAB⟩ <;>
    rcases hAB with ⟨hf0, h1, h2, _⟩ | ⟨hf0, h1, h2, _⟩
  · have := abs_of_pos hf0
    constructor <;> linarith
  · have := abs_of_neg hf0
    constructor <;> linarith
  · have := abs_of_pos hf0
    constructor <;> linarith
  · have := abs_of_neg hf0
    constructor <;> linarith

/-- If `(1/2)^n < ms ≤ (1/2)^k` then `k < n`. -/
theorem halving_lt (ms : ℚ) (n k : ℕ) (hn : ((1:ℚ)/2)^n < ms)
    (hk : ms ≤ ((1:ℚ)/2)^k) : k < n := by
  by_contra hkk
  push_neg at hkk
  have h1 : ((1:ℚ)/2)^k ≤ ((1:ℚ)/2)^n :=
    pow_le_pow_of_le_one (by norm_num) (by norm_num) hkk
  linarith

/-- The trigger observed by a `probe_line` iteration under a `stepSensor`
is exactly the step predicate at the new lateral offset. -/
theorem probeRes_stepSensor (m0 : Machine) (dx dy t zl sz iz zr : ℚ)
    (hq : 0 < dx^2 + dy^2) (st : LineState) (s : ℚ)
    (hx : st.m.x = m0.x + dx * s) (hy : st.m.y = m0.y + dy * s) :
    (probeRes (stepSensor m0 dx dy t zl sz) iz zr (dx, dy) st).1
      = decide (s + st.f ≤ t) := by
  have hxy : ((latPos (dx, dy) st).1 - m0.x) * dx + ((latPos (dx, dy) st).2 - m0.y) * dy
      = (s + st.f) * (dx^2 + dy^2) := by
    simp only [latPos]
    rw [hx, hy]
    ring
  unfold probeRes stepSensor
  simp only [hxy]
  by_cases hC : s + st.f ≤ t
  · rw [if_pos (mul_le_mul_of_nonneg_right hC (le_of_lt hq))]
    exact (decide_eq_true hC).symm
  · rw [if_neg (fun hl => hC ((mul_le_mul_right hq).mp hl))]
    exact (decide_eq_false hC).symm

/-- Full loop invariant of `probe_line` under a `stepSensor`: the machine
sits on the search ray at offset `s`, `|f| = (1/2)^k` with `k ≤ n` halvings
spent, the iteration count is bounded by `2k + step_counter`, the counter
never exceeds 1, and the bracketing invariant holds. -/
def lineInv (m0 : Machine) (dx dy t ms : ℚ) (n : ℕ) (st : LineState) : Prop :=
  ∃ s k, st.m.x = m0.x + dx * s ∧ st.m.y = m0.y + dy * s ∧
    |st.f| = ((1:ℚ)/2)^k ∧ k ≤ n ∧
    st.iters ≤ 2*k + st.stepCounter ∧ st.stepCounter ≤ 1 ∧
    (st.stepCounter = 1 → ms ≤ |st.f|) ∧
    (st.iters = 0 → st.out = none) ∧
    (1 ≤ st.iters → st.out = some (st.m.x, st.m.y, st.m.lastProbedZ)) ∧
    bracketInv t s st.f st.lastTriggered st.stepCounter

/-- One executed loop iteration preserves `lineInv`. -/
theorem lineInv_step (m0 : Machine) (dx dy t zl sz iz zr ms : ℚ) (n : ℕ)
    (hq : 0 < dx^2 + dy^2) (hn : ((1:ℚ)/2)^n < ms) (st : LineState)
    (hc : lineCond ms st = true)
    (hI : lineInv m0 dx dy t ms n st) :
    lineInv m0 dx dy t ms n
      (probeLineStep (stepSensor m0 dx dy t zl sz) iz zr (dx, dy) st) := by
  obtain ⟨s, k, hx, hy, hf, hkn, hit, hsc, hmsf, hout0, hout1, hbr⟩ := hI
  have hcond : st.stepCounter < 20 ∧ ms ≤ |st.f| := by
    simpa [lineCond, Bool.and_eq_true, decide_eq_true_eq] using hc
  have hkltn : k < n := halving_lt ms n k hn (hf ▸ hcond.2)
  have htr : (probeRes (stepSensor m0 dx dy t zl sz) iz zr (dx, dy) st).1
      = decide (s + st.f ≤ t) :=
    probeRes_stepSensor m0 dx dy t zl sz iz zr hq st s hx hy
  have hbs := bracketInv_step t s st.f st.lastTriggered st.stepCounter hbr
  by_cases hne : (probeRes (stepSensor m0 dx dy t zl sz) iz zr (dx, dy) st).1
      ≠ st.lastTriggered
  · have hneD : decide (s + st.f ≤ t) ≠ st.lastTriggered := by
      rw [← htr]
      exact hne
    have hbr' := hbs.1 hneD
    refine ⟨s + st.f, k + 1, ?_, ?_, ?_, ?_, ?_, ?_, ?_, ?_, ?_, ?_⟩
    · rw [probeLineStep_m_x, hx]
      ring
    · rw [probeLineStep_m_y, hy]
      ring
    · have h12 : |(-(1/2) : ℚ)| = 1/2 := by
        rw [abs_neg]
        exact abs_of_pos (by norm_num)
      rw [probeLineStep_f, if_pos hne, abs_mul, h12, hf, pow_succ]
      ring
    · omega
    · rw [probeLineStep_iters, probeLineStep_sc, if_pos hne]
      omega
    · rw [probeLineStep_sc, if_pos hne]
      omega
    · rw [probeLineStep_sc, if_pos hne]
      exact fun h => absurd h (by omega)
    · rw [probeLineStep_iters]
      exact fun h => absurd h (by omega)
    · intro _
      exact probeLineStep_out _ _ _ _ _
    · rw [probeLineStep_f, if_pos hne, probeLineStep_last, probeLineStep_sc,
        if_pos hne, htr]
      exact hbr'
  · have heqD : decide (s + st.f ≤ t) = st.lastTriggered := by
      rw [← htr]
      exact not_ne_iff.mp hne
    obtain ⟨hbr', hsc0⟩ := hbs.2 heqD
    refine ⟨s + st.f, k, ?_, ?_, ?_, ?_, ?_, ?_, ?_, ?_, ?_, ?_⟩
    · rw [probeLineStep_m_x, hx]
      ring
    · rw [probeLineStep_m_y, hy]
      ring
    · rw [probeLineStep_f, if_neg hne]
      exact hf
    · exact hkn
    · rw [probeLineStep_iters, probeLineStep_sc, if_neg hne]
      omega
    · rw [probeLineStep_sc, if_neg hne]
      omega
    · intro _
      rw [probeLineStep_f, if_neg hne]
      exact hcond.2
    · rw [probeLineStep_iters]
      exact fun h => absurd h (by omega)
    · intro _
      exact probeLineStep_out _ _ _ _ _
    · rw [probeLineStep_f, if_neg hne, probeLineStep_last, probeLineStep_sc,
        if_neg hne, htr]
      exact hbr'

end Proboter

namespace Proboter

/-- Running the loop from any `lineInv` state with fuel at least
`2n - iters` reaches a final state satisfying `lineInv` with the loop
condition false. -/
theorem lineInv_run (m0 : Machine) (dx dy t zl sz iz zr ms : ℚ) (n : ℕ)
    (hq : 0 < dx^2 + dy^2) (hn : ((1:ℚ)/2)^n < ms) :
    ∀ (fuel : ℕ) (st : LineState), lineInv m0 dx dy t ms n st →
      2 * n ≤ st.iters + fuel →
      ∃ s', probeLineAux (stepSensor m0 dx dy t zl sz) iz ms zr (dx, dy) fuel st
          = some s' ∧
        lineInv m0 dx dy t ms n s' ∧ lineCond ms s' = false := by
  intro fuel
  induction fuel with
  | zero =>
    intro st hI hfu
    have hcF : lineCond ms st = false := by
      cases hcb : lineCond ms st with
      | false => rfl
      | true =>
        exfalso
        obtain ⟨s, k, hx, hy, hf, hkn, hit, hsc, hmsf, hout0, hout1, hbr⟩ := hI
        have hcond : st.stepCounter < 20 ∧ ms ≤ |st.f| := by
          simpa [lineCond, Bool.and_eq_true, decide_eq_true_eq] using hcb
        have hkltn : k < n := halving_lt ms n k hn (hf ▸ hcond.2)
        omega
    exact ⟨st, by simp [probeLineAux, hcF], hI, hcF⟩
  | succ g ih =>
    intro st hI hfu
    cases hcb : lineCond ms st with
    | false => exact ⟨st, by simp [probeLineAux, hcb], hI, hcb⟩
    | true =>
      have hI' := lineInv_step m0 dx dy t zl sz iz zr ms n hq hn st hcb hI
      obtain ⟨s', h1, h2, h3⟩ := ih
        (probeLineStep (stepSensor m0 dx dy t zl sz) iz zr (dx, dy) st) hI'
        (by rw [probeLineStep_iters]; omega)
      refine ⟨s', ?_, h2, h3⟩
      simp only [probeLineAux, hcb, if_true]
      exact h1

/-- C1 (amended): for every contact predicate that is a step function of
lateral offset along the (nonzero) search direction, with the transition at
offset `t` with `0 ≤ t < 2` (covering the initial search range), and every
`min_step` with `0 < min_step ≤ 1` (say `(1/2)^n < min_step`): `probe_line`
terminates converged (`step_counter < 20`, result flag `true`) within at
most `2n` loop iterations, and the last recorded boundary point's lateral
offset is within `2 * min_step` of `t`.  (The original claim's bound of
`min_step` itself is wrong — see the counterexample — and the 20-iteration
bound holds for the deployed `min_step = 0.01`, where `n = 7` gives at most
14 iterations.) -/
theorem probe_line_bisection_convergence (m0 : Machine)
    (dx dy t zl sz iz zr ms : ℚ) (n c0 : ℕ)
    (hd : ¬(dx = 0 ∧ dy = 0)) (ht0 : 0 ≤ t) (ht2 : t < 2)
    (hms1 : ms ≤ 1) (hn : ((1:ℚ)/2)^n < ms) :
    ∃ (s' : LineState) (sOff zz : ℚ),
      probe_line (stepSensor m0 dx dy t zl sz) iz ms zr (dx, dy) m0 c0 (2*n)
        = some (true, s') ∧
      s'.iters ≤ 2 * n ∧ 1 ≤ s'.iters ∧
      s'.out = some (m0.x + dx * sOff, m0.y + dy * sOff, zz) ∧
      |sOff - t| < 2 * ms := by
  have hq : 0 < dx^2 + dy^2 := by
    rcases not_and_or.mp hd with h | h
    · have h2 : 0 < dx^2 := pow_two_pos_of_ne_zero h
      have h3 : 0 ≤ dy^2 := sq_nonneg dy
      linarith
    · have h2 : 0 < dy^2 := pow_two_pos_of_ne_zero h
      have h3 : 0 ≤ dx^2 := sq_nonneg dx
      linarith
  have hI0 : lineInv m0 dx dy t ms n (initLineState m0 c0) := by
    refine ⟨0, 0, ?_, ?_, ?_, ?_, ?_, ?_, ?_, ?_, ?_, ?_⟩
    · show m0.x = m0.x + dx * 0
      ring
    · show m0.y = m0.y + dy * 0
      ring
    · show |(1:ℚ)| = ((1:ℚ)/2)^0
      norm_num
    · exact Nat.zero_le n
    · show (0:ℕ) ≤ 2*0 + 0
      omega
    · show (0:ℕ) ≤ 1
      omega
    · show (0:ℕ) = 1 → ms ≤ |(1:ℚ)|
      intro h
      exact absurd h (by omega)
    · show (0:ℕ) = 0 → (none : Option (ℚ × ℚ × ℚ)) = none
      intro _
      rfl
    · show 1 ≤ 0 → (none : Option (ℚ × ℚ × ℚ)) = some (m0.x, m0.y, m0.lastProbedZ)
      intro h
      exact absurd h (by omega)
    · show bracketInv t 0 1 true 0
      exact Or.inl ⟨rfl, Or.inl ⟨by norm_num, ht0, by linarith, rfl⟩⟩
  obtain ⟨s', hsome, hI', hcF⟩ :=
    lineInv_run m0 dx dy t zl sz iz zr ms n hq hn (2*n) (initLineState m0 c0) hI0
      (by show 2*n ≤ 0 + 2*n; omega)
  have hcT : lineCond ms (initLineState m0 c0) = true := by
    simp only [lineCond, Bool.and_eq_true, decide_eq_true_eq]
    constructor
    · show (0:ℕ) < 20
      omega
    · show ms ≤ |(1:ℚ)|
      rw [abs_one]
      exact hms1
  have hpos : 1 ≤ s'.iters := by
    cases hfuel : 2*n with
    | zero =>
      exfalso
      have hn0 : n = 0 := by omega
      rw [hn0, pow_zero] at hn
      linarith
    | succ g =>
      rw [hfuel] at hsome
      simp only [probeLineAux, hcT, if_true] at hsome
      have hle := probeLineAux_iters_le (stepSensor m0 dx dy t zl sz) iz ms zr
        (dx, dy) g _ _ hsome
      rw [probeLineStep_iters] at hle
      have : (initLineState m0 c0).iters = 0 := rfl
      omega
  obtain ⟨s, k, hx, hy, hf, hkn, hit, hsc, hmsf, hout0, hout1, hbr⟩ := hI'
  have hfal : |s'.f| < ms := by
    simp only [lineCond, Bool.and_eq_false_iff, decide_eq_false_iff_not,
      not_lt, not_le] at hcF
    rcases hcF with h | h
    · exfalso
      omega
    · exact h
  have hclose := bracketInv_close t s s'.f s'.lastTriggered s'.stepCounter ms hbr hfal
  have hsc0 : s'.stepCounter = 0 := by
    rcases Nat.lt_or_ge s'.stepCounter 1 with h | h
    · omega
    · have h1 : s'.stepCounter = 1 := by omega
      have := hmsf h1
      linarith
  refine ⟨s', s, s'.m.lastProbedZ, ?_, ?_, hpos, ?_, hclose⟩
  · unfold probe_line
    rw [hsome]
    have hlt : s'.stepCounter < 20 := by omega
    simp [hlt]
  · omega
  · rw [hout1 hpos, hx, hy]

/-- C1 counterexample: for the step sensor with transition at `t = 3/10`
(inside the initial search range) and `min_step = 1/100`, the search
converges (flag `true`) but the last recorded point's lateral offset is
`5/16`, and `|5/16 - 3/10| = 1/80 > 1/100`: the claimed `min_step`
tolerance is false on the code (the provable bound is `2 * min_step`). -/
theorem probe_line_not_within_min_step :
    (probeLineAux (stepSensor m₀ 1 0 (3/10) 2 3) 0 (1/100) 0 (1, 0) 50
        (initLineState m₀ 0)).map (fun s => (s.out, decide (s.stepCounter < 20)))
      = some (some (5/16, 0, 2), true) ∧
    (1:ℚ)/100 < |5/16 - 3/10| := by
  constructor
  · with_unfolding_all decide
  · with_unfolding_all decide

/-- Witness for C1 (amended) at a concrete input: direction `(1, 0)`,
transition at `t = 1/2`, `min_step = 1/4`, `n = 3`. -/
theorem probe_line_bisection_convergence_witness :
    ¬((1:ℚ) = 0 ∧ (0:ℚ) = 0) ∧ (0:ℚ) ≤ 1/2 ∧ (1/2:ℚ) < 2 ∧ (1/4:ℚ) ≤ 1 ∧
    ((1:ℚ)/2)^3 < 1/4 ∧
    (∃ (s' : LineState) (sOff zz : ℚ),
      probe_line (stepSensor m₀ 1 0 (1/2) 7 3) 0 (1/4) 0 (1, 0) m₀ 0 (2*3)
        = some (true, s') ∧
      s'.iters ≤ 2 * 3 ∧ 1 ≤ s'.iters ∧
      s'.out = some (m₀.x + 1 * sOff, m₀.y + 0 * sOff, zz) ∧
      |sOff - 1/2| < 2 * (1/4)) := by
  refine ⟨by with_unfolding_all decide, by with_unfolding_all decide,
    by with_unfolding_all decide, by with_unfolding_all decide,
    by with_unfolding_all decide, ?_⟩
  exact probe_line_bisection_convergence m₀ 1 0 (1/2) 7 3 0 0 (1/4) 3 0
    (by with_unfolding_all decide) (by with_unfolding_all decide)
    (by with_unfolding_all decide) (by with_unfolding_all decide)
    (by with_unfolding_all decide)

end Proboter

namespace Proboter

/-! ### center_circle -/

/-- A `probe_z` call with a not-triggered outcome returns `false`. -/
theorem probe_z_fst_notTriggered (e : ProbeEnv) (zm zr zc : ℚ) (m : Machine)
    (h : e.outcome = ProbeOutcome.notTriggered) :
    (probe_z e zm zr zc m).1 = false := by
  unfold probe_z
  rw [h]

/-- Each scanning-loop step appends exactly one boundary point and one
convergence flag, and keeps the center's z. -/
theorem ccScanStep_shape (env : ℕ → ℚ → ℚ → ProbeEnv) (cfg : CCConfig)
    (z0 z0c : ℚ) (i : ℕ) (st st' : CCState)
    (h : ccScanStep env cfg z0 z0c i st = some st') :
    st'.points.length = st.points.length + 1 ∧
    st'.convFlags.length = st.convFlags.length + 1 ∧ st'.cz = st.cz := by
  unfold ccScanStep at h
  rcases hpl : probe_line env z0 (1/100) z0c (stepDir cfg i)
      { x := st.cx, y := st.cy, z := st.cz, lastProbedZ := st.m.lastProbedZ }
      st.calls 200 with _ | p
  · rw [hpl] at h
    exact absurd h (by simp)
  · rw [hpl] at h
    obtain ⟨conv, ls⟩ := p
    dsimp only at h
    rcases hout : ls.out with _ | pt
    · rw [hout] at h
      exact absurd h (by simp)
    · rw [hout] at h
      dsimp only at h
      simp only [Option.some_inj] at h
      rw [← h]
      simp

/-- The scanning loop appends one point per direction. -/
theorem ccScan_points_length (env : ℕ → ℚ → ℚ → ProbeEnv) (cfg : CCConfig)
    (z0 z0c : ℚ) :
    ∀ (k : ℕ) (st st' : CCState), ccScan env cfg z0 z0c k st = some st' →
      st'.points.length = st.points.length + k := by
  intro k
  induction k with
  | zero =>
    intro st st' h
    simp only [ccScan, Option.some_inj] at h
    rw [← h]
    omega
  | succ j ih =>
    intro st st' h
    unfold ccScan at h
    rcases hmid : ccScan env cfg z0 z0c j st with _ | mid
    · rw [hmid] at h
      exact absurd h (by simp)
    · rw [hmid] at h
      have h1 := ih st mid hmid
      have h2 := (ccScanStep_shape env cfg z0 z0c j mid st' h).1
      omega

/-- On a list of six points, the emission loop prints exactly the suffix
of indices 2 through 5, in order. -/
theorem emitPoints_of_six (pts : List (ℚ × ℚ × ℚ)) (h : pts.length = 6) :
    emitPoints pts = pts.drop 2 := by
  rcases pts with _ | ⟨a, _ | ⟨b, _ | ⟨c, _ | ⟨d, _ | ⟨e, _ | ⟨f, rest⟩⟩⟩⟩⟩⟩ <;>
    simp at h
  rw [h]
  rfl

/-- C6: if the initial contact probe of `center_circle` does not trigger,
the run aborts: the result carries `success = false`, an empty point list,
no convergence flags, and the motion trace is exactly that of the single
initial probe attempt — no scanning motion is ever issued. -/
theorem center_circle_aborts_without_contact (env : ℕ → ℚ → ℚ → ProbeEnv)
    (cfg : CCConfig) (m0 : Machine)
    (h : (env 0 m0.x m0.y).outcome = ProbeOutcome.notTriggered) :
    center_circle env cfg m0 =
      some { success := false, emitted := [], points := [], convFlags := [],
             trace := (probe_z (env 0 m0.x m0.y) cfg.zMaxPos (-1) 1
               { x := m0.x, y := m0.y, z := m0.z, lastProbedZ := 0 }).2.2 } := by
  unfold center_circle
  dsimp only
  have h1 : (probe_z (env 0 m0.x m0.y) cfg.zMaxPos (-1) 1
      { x := m0.x, y := m0.y, z := m0.z, lastProbedZ := 0 }).1 = false :=
    probe_z_fst_notTriggered _ _ _ _ _ h
  simp [h1]

/-- Witness for C6 at a concrete input: a never-triggering environment
makes `center_circle` abort with the failure record. -/
theorem center_circle_aborts_without_contact_witness :
    (envNo 0 m₀.x m₀.y).outcome = ProbeOutcome.notTriggered ∧
    center_circle envNo { zMaxPos := 100, zClearance := 1, probingStep := 8 } m₀ =
      some { success := false, emitted := [], points := [], convFlags := [],
             trace := (probe_z (envNo 0 m₀.x m₀.y) 100 (-1) 1
               { x := m₀.x, y := m₀.y, z := m₀.z, lastProbedZ := 0 }).2.2 } :=
  ⟨rfl, center_circle_aborts_without_contact envNo
    { zMaxPos := 100, zClearance := 1, probingStep := 8 } m₀ rfl⟩

end Proboter

namespace Proboter

/-- C7: during a `center_circle` run, the step for direction index 1 sets
`probing_center.x` to the arithmetic mean of `points[0].x` and `points[1].x`
(leaving y and z untouched); the step for direction index 3 sets
`probing_center.y` to the mean of `points[2].y` and `points[3].y` (leaving
x and z); every direction step keeps `probing_center.z` unchanged and
begins by moving the head to the probing center (the first motion event it
appends is `moveTo` of the current center). -/
theorem center_circle_center_refinement :
    (∀ (env : ℕ → ℚ → ℚ → ProbeEnv) (cfg : CCConfig) (z0 z0c : ℚ) (st : CCState),
      st.points.length = 1 →
      (ccScanStep env cfg z0 z0c 1 st).map
          (fun st' => (st'.cx, st'.cy, st'.cz, st'.points.length)) =
        (ccScanStep env cfg z0 z0c 1 st).map
          (fun st' => (((st'.points.getD 0 (0, 0, 0)).1 +
              (st'.points.getD 1 (0, 0, 0)).1) * (1/2), st.cy, st.cz, 2))) ∧
    (∀ (env : ℕ → ℚ → ℚ → ProbeEnv) (cfg : CCConfig) (z0 z0c : ℚ) (st : CCState),
      st.points.length = 3 →
      (ccScanStep env cfg z0 z0c 3 st).map
          (fun st' => (st'.cx, st'.cy, st'.cz, st'.points.length)) =
        (ccScanStep env cfg z0 z0c 3 st).map
          (fun st' => (st.cx, ((st'.points.getD 2 (0, 0, 0)).2.1 +
              (st'.points.getD 3 (0, 0, 0)).2.1) * (1/2), st.cz, 4))) ∧
    (∀ (env : ℕ → ℚ → ℚ → ProbeEnv) (cfg : CCConfig) (z0 z0c : ℚ) (i : ℕ)
        (st : CCState),
      (ccScanStep env cfg z0 z0c i st).map
          (fun st' => (st'.cz, st'.trace.take st.trace.length,
            st'.trace.getD st.trace.length Event.quickStop)) =
        (ccScanStep env cfg z0 z0c i st).map
          (fun _ => (st.cz, st.trace, Event.moveTo st.cx st.cy st.cz))) := by
  refine ⟨?_, ?_, ?_⟩
  · intro env cfg z0 z0c st hlen
    unfold ccScanStep
    rcases hpl : probe_line env z0 (1/100) z0c (stepDir cfg 1)
        { x := st.cx, y := st.cy, z := st.cz, lastProbedZ := st.m.lastProbedZ }
        st.calls 200 with _ | p
    · rfl
    · obtain ⟨conv, ls⟩ := p
      dsimp only
      rcases hout : ls.out with _ | pt
      · rfl
      · dsimp only
        simp [hlen]
  · intro env cfg z0 z0c st hlen
    unfold ccScanStep
    rcases hpl : probe_line env z0 (1/100) z0c (stepDir cfg 3)
        { x := st.cx, y := st.cy, z := st.cz, lastProbedZ := st.m.lastProbedZ }
        st.calls 200 with _ | p
    · rfl
    · obtain ⟨conv, ls⟩ := p
      dsimp only
      rcases hout : ls.out with _ | pt
      · rfl
      · dsimp only
        simp [hlen]
  · intro env cfg z0 z0c i st
    unfold ccScanStep
    rcases hpl : probe_line env z0 (1/100) z0c (stepDir cfg i)
        { x := st.cx, y := st.cy, z := st.cz, lastProbedZ := st.m.lastProbedZ }
        st.calls 200 with _ | p
    · rfl
    · obtain ⟨conv, ls⟩ := p
      dsimp only
      rcases hout : ls.out with _ | pt
      · rfl
      · dsimp only
        simp only [Option.map_some', Option.some.injEq, Prod.mk.injEq]
        refine ⟨trivial, ?_, ?_⟩
        · show (st.trace ++ (Event.moveTo st.cx st.cy st.cz :: ls.trace)).take
              st.trace.length = st.trace
          exact List.take_left st.trace (Event.moveTo st.cx st.cy st.cz :: ls.trace)
        · show (st.trace ++ (Event.moveTo st.cx st.cy st.cz :: ls.trace)).getD
              st.trace.length Event.quickStop = Event.moveTo st.cx st.cy st.cz
          rw [List.getD_append_right _ _ _ _ (le_refl _)]
          simp

end Proboter

namespace Proboter

/-- Witness fixtures: a configuration, and scanning states with one and
three recorded points. -/
def cfgW : CCConfig := { zMaxPos := 100, zClearance := 1, probingStep := 8 }

def stW1 : CCState :=
  { m := m₀, cx := 0, cy := 0, cz := 0, points := [(1, 2, 3)],
    convFlags := [true], calls := 0, trace := [] }

def stW3 : CCState :=
  { m := m₀, cx := 0, cy := 0, cz := 0,
    points := [(1, 2, 3), (4, 5, 6), (7, 8, 9)],
    convFlags := [true, true, true], calls := 0, trace := [] }

/-- Witness for C7 at concrete inputs: the x refinement after direction 1,
the y refinement after direction 3, and the move-to-center trace prefix. -/
theorem center_circle_center_refinement_witness :
    stW1.points.length = 1 ∧ stW3.points.length = 3 ∧
    ((ccScanStep envNo cfgW 0 0 1 stW1).map
        (fun st' => (st'.cx, st'.cy, st'.cz, st'.points.length)) =
      (ccScanStep envNo cfgW 0 0 1 stW1).map
        (fun st' => (((st'.points.getD 0 (0, 0, 0)).1 +
            (st'.points.getD 1 (0, 0, 0)).1) * (1/2), stW1.cy, stW1.cz, 2))) ∧
    ((ccScanStep envNo cfgW 0 0 3 stW3).map
        (fun st' => (st'.cx, st'.cy, st'.cz, st'.points.length)) =
      (ccScanStep envNo cfgW 0 0 3 stW3).map
        (fun st' => (stW3.cx, ((st'.points.getD 2 (0, 0, 0)).2.1 +
            (st'.points.getD 3 (0, 0, 0)).2.1) * (1/2), stW3.cz, 4))) ∧
    ((ccScanStep envNo cfgW 0 0 0 stW1).map
        (fun st' => (st'.cz, st'.trace.take stW1.trace.length,
          st'.trace.getD stW1.trace.length Event.quickStop)) =
      (ccScanStep envNo cfgW 0 0 0 stW1).map
        (fun _ => (stW1.cz, stW1.trace, Event.moveTo stW1.cx stW1.cy stW1.cz))) :=
  ⟨rfl, rfl, center_circle_center_refinement.1 envNo cfgW 0 0 stW1 rfl,
    center_circle_center_refinement.2.1 envNo cfgW 0 0 stW3 rfl,
    center_circle_center_refinement.2.2 envNo cfgW 0 0 0 stW1⟩

/-- C8: a `center_circle` run that passes the initial probe records exactly
six boundary points and emits exactly the points of schedule indices 2
through 5, in order (the first pass in the x directions, indices 0 and 1, is dropped). -/
theorem center_circle_emits_points_2_to_5 (env : ℕ → ℚ → ℚ → ProbeEnv)
    (cfg : CCConfig) (m0 : Machine) (r : CCResult)
    (h : center_circle env cfg m0 = some r) (hs : r.success = true) :
    r.points.length = 6 ∧ r.emitted = r.points.drop 2 := by
  unfold center_circle at h
  dsimp only at h
  by_cases h1 : (probe_z (env 0 m0.x m0.y) cfg.zMaxPos (-1) 1
      { x := m0.x, y := m0.y, z := m0.z, lastProbedZ := 0 }).1 = false
  · rw [if_pos h1] at h
    simp only [Option.some_inj] at h
    rw [← h] at hs
    exact absurd hs (by simp)
  · rw [if_neg h1] at h
    rcases hone : ccScan env cfg
        (probe_z (env 0 m0.x m0.y) cfg.zMaxPos (-1) 1
          { x := m0.x, y := m0.y, z := m0.z, lastProbedZ := 0 }).2.1.lastProbedZ
        ((probe_z (env 0 m0.x m0.y) cfg.zMaxPos (-1) 1
          { x := m0.x, y := m0.y, z := m0.z, lastProbedZ := 0 }).2.1.lastProbedZ
            - cfg.zClearance) 6
        { m := (probe_z (env 0 m0.x m0.y) cfg.zMaxPos (-1) 1
            { x := m0.x, y := m0.y, z := m0.z, lastProbedZ := 0 }).2.1,
          cx := (probe_z (env 0 m0.x m0.y) cfg.zMaxPos (-1) 1
            { x := m0.x, y := m0.y, z := m0.z, lastProbedZ := 0 }).2.1.x,
          cy := (probe_z (env 0 m0.x m0.y) cfg.zMaxPos (-1) 1
            { x := m0.x, y := m0.y, z := m0.z, lastProbedZ := 0 }).2.1.y,
          cz := (probe_z (env 0 m0.x m0.y) cfg.zMaxPos (-1) 1
            { x := m0.x, y := m0.y, z := m0.z, lastProbedZ := 0 }).2.1.z,
          points := [], convFlags := [], calls := 1,
          trace := (probe_z (env 0 m0.x m0.y) cfg.zMaxPos (-1) 1
            { x := m0.x, y := m0.y, z := m0.z, lastProbedZ := 0 }).2.2 }
        with _ | stF
    · rw [hone] at h
      exact absurd h (by simp)
    · rw [hone] at h
      simp only [Option.some_inj] at h
      have hlen := ccScan_points_length env cfg _ _ 6 _ stF hone
      simp only [List.length_nil] at hlen
      rw [← h]
      constructor
      · exact hlen
      · exact emitPoints_of_six stF.points hlen

/-- C3 (amended): `probe_line` does return a convergence Boolean — `true`
iff `step_counter < 20` at exit — but `center_circle` discards it: the
caller-visible result of `center_circle` carries only the success flag and
the bare x/y/z coordinates `emitPoints r.points` of schedule indices 2-5,
with no convergence marking. -/
theorem probe_line_flag_center_circle_unmarked :
    (∀ (env : ℕ → ℚ → ℚ → ProbeEnv) (iz ms zr : ℚ) (d : ℚ × ℚ) (m : Machine)
        (c0 fuel : ℕ) (s' : LineState),
      probeLineAux env iz ms zr d fuel (initLineState m c0) = some s' →
      probe_line env iz ms zr d m c0 fuel
        = some (decide (s'.stepCounter < 20), s')) ∧
    (∀ (env : ℕ → ℚ → ℚ → ProbeEnv) (cfg : CCConfig) (m0 : Machine),
      (center_circle env cfg m0).map (fun r => (r.success, r.emitted)) =
        (center_circle env cfg m0).map
          (fun r => (r.success, if r.success then emitPoints r.points else []))) := by
  constructor
  · intro env iz ms zr d m c0 fuel s' h
    unfold probe_line
    rw [h]
    rfl
  · intro env cfg m0
    unfold center_circle
    dsimp only
    by_cases h1 : (probe_z (env 0 m0.x m0.y) cfg.zMaxPos (-1) 1
        { x := m0.x, y := m0.y, z := m0.z, lastProbedZ := 0 }).1 = false
    · rw [if_pos h1]
      rfl
    · rw [if_neg h1]
      rcases hone : ccScan env cfg
          (probe_z (env 0 m0.x m0.y) cfg.zMaxPos (-1) 1
            { x := m0.x, y := m0.y, z := m0.z, lastProbedZ := 0 }).2.1.lastProbedZ
          ((probe_z (env 0 m0.x m0.y) cfg.zMaxPos (-1) 1
            { x := m0.x, y := m0.y, z := m0.z, lastProbedZ := 0 }).2.1.lastProbedZ
              - cfg.zClearance) 6
          { m := (probe_z (env 0 m0.x m0.y) cfg.zMaxPos (-1) 1
              { x := m0.x, y := m0.y, z := m0.z, lastProbedZ := 0 }).2.1,
            cx := (probe_z (env 0 m0.x m0.y) cfg.zMaxPos (-1) 1
              { x := m0.x, y := m0.y, z := m0.z, lastProbedZ := 0 }).2.1.x,
            cy := (probe_z (env 0 m0.x m0.y) cfg.zMaxPos (-1) 1
              { x := m0.x, y := m0.y, z := m0.z, lastProbedZ := 0 }).2.1.y,
            cz := (probe_z (env 0 m0.x m0.y) cfg.zMaxPos (-1) 1
              { x := m0.x, y := m0.y, z := m0.z, lastProbedZ := 0 }).2.1.z,
            points := [], convFlags := [], calls := 1,
            trace := (probe_z (env 0 m0.x m0.y) cfg.zMaxPos (-1) 1
              { x := m0.x, y := m0.y, z := m0.z, lastProbedZ := 0 }).2.2 }
          with _ | stF
      · rfl
      · rfl

end Proboter

namespace Proboter

/-- Per-call probe scripts: the environment answers call `c` with the
`c`-th entry (never triggering once the script is exhausted). -/
def envOfScript (script : List ProbeEnv) : ℕ → ℚ → ℚ → ProbeEnv :=
  fun c _ _ => script.getD c npE

/-- Initial probe of the scripted runs: triggers, latching `5`, head
stopping at `6`. -/
def initE : ProbeEnv := { outcome := ProbeOutcome.loopTriggered 5, stoppedZ := 6 }

/-- Direction-2 script of run A: seven flag transitions, converging in 8
iterations at lateral offset `11/16` of a probing step. -/
def dirA : List ProbeEnv := [npE, lpE, npE, lpE, npE, lpE, lpE, npE]

/-- Direction-2 script of run B: six transitions, then 20 consecutive
no-transition iterations — the iteration cap is hit (unconverged) at the
same final lateral offset `11/16` as run A. -/
def dirB : List ProbeEnv :=
  [npE, lpE, npE, npE, lpE, npE, npE, npE, npE, npE, npE, lpE] ++
    List.replicate 20 lpE

/-- Script of run A: triggered initial probe, directions 0, 1, 3, 4 and 5
never trigger (21 iterations each), direction 2 follows `dirA`. -/
def scriptA : List ProbeEnv :=
  initE :: (List.replicate 21 npE ++ List.replicate 21 npE ++ dirA ++
    List.replicate 21 npE ++ List.replicate 21 npE ++ List.replicate 21 npE)

/-- Script of run B: as run A but direction 2 follows `dirB`. -/
def scriptB : List ProbeEnv :=
  initE :: (List.replicate 21 npE ++ List.replicate 21 npE ++ dirB ++
    List.replicate 21 npE ++ List.replicate 21 npE ++ List.replicate 21 npE)

set_option maxRecDepth 10000 in
/-- C3 counterexample: two `center_circle` runs whose caller-visible output
(success flag and emitted point list) is identical, although in run A the
direction-2 edge search converged and in run B it exhausted the iteration
cap: the discarded `probe_line` flags differ, so `center_circle` does not
mark which emitted points are unconverged — a caller cannot distinguish a
converged point from a best-effort one. -/
theorem center_circle_output_hides_unconverged :
    (center_circle (envOfScript scriptA) cfgW m₀).map (fun r => (r.success, r.emitted))
      = (center_circle (envOfScript scriptB) cfgW m₀).map
          (fun r => (r.success, r.emitted)) ∧
    (center_circle (envOfScript scriptA) cfgW m₀).map (fun r => r.convFlags)
      ≠ (center_circle (envOfScript scriptB) cfgW m₀).map (fun r => r.convFlags) := by
  constructor
  · with_unfolding_all decide
  · with_unfolding_all decide

/-- Witness for C3 (amended) at concrete inputs: the convergence flag
`probe_line` returns, and the coordinates-only shape of the
`center_circle` report. -/
theorem probe_line_flag_center_circle_unmarked_witness :
    probeLineAux envNo 0 2 0 (1, 0) 3 (initLineState m₀ 0)
      = some (initLineState m₀ 0) ∧
    probe_line envNo 0 2 0 (1, 0) m₀ 0 3
      = some (decide ((initLineState m₀ 0).stepCounter < 20), initLineState m₀ 0) ∧
    ((center_circle envNo cfgW m₀).map (fun r => (r.success, r.emitted)) =
      (center_circle envNo cfgW m₀).map
        (fun r => (r.success, if r.success then emitPoints r.points else []))) := by
  have h : probeLineAux envNo 0 2 0 (1, 0) 3 (initLineState m₀ 0)
      = some (initLineState m₀ 0) := by
    with_unfolding_all decide
  exact ⟨h, probe_line_flag_center_circle_unmarked.1 envNo 0 2 0 (1, 0) m₀ 0 3 _ h,
    probe_line_flag_center_circle_unmarked.2 envNo cfgW m₀⟩

set_option maxRecDepth 10000 in
/-- Witness for C8 at a concrete input: the scripted run A succeeds with six
recorded points and emits exactly their suffix from index 2. -/
theorem center_circle_emits_points_2_to_5_witness :
    (center_circle (envOfScript scriptA) cfgW m₀).map
      (fun r => (r.points.length, decide (r.emitted = r.points.drop 2)))
      = some (6, true) := by
  rcases h : center_circle (envOfScript scriptA) cfgW m₀ with _ | r
  · exact absurd h (by with_unfolding_all decide)
  · have h2 : (center_circle (envOfScript scriptA) cfgW m₀).map CCResult.success
        = some true := by
      with_unfolding_all decide
    rw [h] at h2
    simp only [Option.map_some', Option.some_inj] at h2
    have k := center_circle_emits_points_2_to_5 (envOfScript scriptA) cfgW m₀ r h h2
    simp [k.1, k.2]

end Proboter
